import Mathlib

/-!
Verification of the `eff` frame-loop package (eff.go).

The package wraps an SDL window/renderer pair: `SDLCanvas.Run` creates the
window and renderer, calls `Init` once on every registered drawable, then
loops: poll events (quit / key-up `q` stop the loop, key-up `f` toggles
fullscreen), clear to opaque black, call `Draw` then `Update` on each
drawable in registration order, present, and throttle to the 90 Hz frame
budget.  `SDLCanvas.DrawPoints` submits one batched point draw after setting
the draw color, converting each channel with the Go `uint8` conversion and
each coordinate with the Go `int32` conversion.

The embedding below is a trace semantics: every backend or lifecycle call
the Go code performs becomes a `Call` entry, in program order.  Drawables
are identified by their registration index.  The SDL backend is modelled by
an `Env`: whether window/renderer creation succeeds, and for each loop
iteration the batch of events `PollEvent` drains plus the `GetTicks`
reading (a `uint32`, hence taken modulo 2^32).  Because the Go loop runs
until a quit signal, the loop is driven by the finite list of per-frame
environments; if that list is exhausted with the loop still running, the
status of the run is `none` (the real loop would still be running).
-/

namespace Eff

/-- Fixed window title from the source constants. -/
def windowTitle : String := "Effulgent"

/-- Target frame rate, frames per second. -/
def frameRate : Nat := 90

/-- Frame budget in milliseconds: Go integer division `1000 / frameRate`. -/
def frameTime : Nat := 1000 / frameRate

/-- 2d integer point (Go `int` modelled as `Int`). -/
structure Point where
  X : Int
  Y : Int
deriving DecidableEq

/-- RGBA color with Go `int` channels. -/
structure Color where
  R : Int
  G : Int
  B : Int
  A : Int
deriving DecidableEq

/-- Go `uint8(v)` conversion: low 8 bits of the value in two-complement form. -/
def uint8 (v : Int) : Nat := (v % 256).toNat

/-- Go `int32(v)` conversion: wrap into the signed 32-bit range. -/
def int32 (v : Int) : Int := (v + 2147483648) % 4294967296 - 2147483648

/-- `sdl.Point`, whose fields are `int32`. -/
structure SDLPoint where
  X : Int
  Y : Int
deriving DecidableEq

/-- The conversion eff.go applies to each point handed to the backend. -/
def pointToSDL (p : Point) : SDLPoint := ⟨int32 p.X, int32 p.Y⟩

/-- uint32 subtraction `a - b` (both arguments already reduced mod 2^32). -/
def sub32 (a b : Nat) : Nat := (a + 4294967296 - b) % 4294967296

/-- One observable call made by `Run`/`DrawPoints`, in program order.
Lifecycle dispatches carry the registration index of the drawable. -/
inductive Call where
  | createWindow
  | createRenderer
  | destroyWindow
  | destroyRenderer
  | clear
  | init (i : Nat)
  | draw (i : Nat)
  | update (i : Nat)
  | setDrawColor (r g b a : Nat)
  | setFullscreen (flag : Nat)
  | present
  | delay (ms : Nat)
  | drawPointsBatch (pts : List SDLPoint)
deriving DecidableEq

/-- `sdl.WINDOW_FULLSCREEN`. -/
def windowFullscreenFlag : Nat := 1

/-- Keys the event switch distinguishes: `sdl.K_q`, `sdl.K_f`, anything else. -/
inductive Key where
  | q
  | f
  | other
deriving DecidableEq

/-- Events `PollEvent` can deliver that the switch inspects. -/
inductive Ev where
  | quit
  | keyUp (k : Key)
deriving DecidableEq

/-- Does this event set `running = false` in the switch (quit or key-up q)? -/
def quitish : Ev → Bool
  | Ev.quit => true
  | Ev.keyUp Key.q => true
  | _ => false

/-- Backend input for one loop iteration: the events drained by the
`PollEvent` loop and the `GetTicks` value read at frame end. -/
structure Frame where
  events : List Ev
  ticks : Nat
deriving DecidableEq

/-- Mutable loop state of `Run`: `running`, `fullscreen`, `lastFrameTime`. -/
structure LoopState where
  running : Bool
  fullscreen : Bool
  lastFrameTime : Nat
deriving DecidableEq

/-- The `PollEvent` drain loop: fold the event switch over the pending
events, threading `(running, fullscreen)` and recording the
`SetFullscreen` calls the `f` branch performs immediately. -/
def procEvents : Bool → Bool → List Ev → (Bool × Bool) × List Call
  | r, fs, [] => ((r, fs), [])
  | _, fs, Ev.quit :: rest => procEvents false fs rest
  | _, fs, Ev.keyUp Key.q :: rest => procEvents false fs rest
  | r, fs, Ev.keyUp Key.f :: rest =>
    ((procEvents r (!fs) rest).1,
      Call.setFullscreen (if !fs then windowFullscreenFlag else 0)
        :: (procEvents r (!fs) rest).2)
  | r, fs, Ev.keyUp Key.other :: rest => procEvents r fs rest

/-- The drawable dispatch loop of one frame: for each registered drawable
in order, `Draw` then `Update`. -/
def drawPhase : Nat → List Call
  | 0 => []
  | n + 1 => drawPhase n ++ [Call.draw n, Call.update n]

/-- Calls of one loop iteration up to (not including) `Present`: event
handling, `SetDrawColor(0,0,0,0xFF)`, `Clear`, then the drawable loop. -/
def framePre (n : Nat) (st : LoopState) (f : Frame) : List Call :=
  (procEvents st.running st.fullscreen f.events).2
    ++ [Call.setDrawColor 0 0 0 255, Call.clear]
    ++ drawPhase n

/-- The throttle after `Present`: if the uint32 elapsed time since the last
frame is below `frameTime`, delay for the remainder. -/
def framePace (last cur : Nat) : List Call :=
  if sub32 cur last < frameTime then [Call.delay (frameTime - sub32 cur last)] else []

/-- One full iteration of the `for running` loop body: returns the updated
loop state and the calls performed, in order. -/
def frameStep (n : Nat) (st : LoopState) (f : Frame) : LoopState × List Call :=
  (⟨(procEvents st.running st.fullscreen f.events).1.1,
    (procEvents st.running st.fullscreen f.events).1.2,
    f.ticks % 4294967296⟩,
   framePre n st f ++ [Call.present] ++ framePace st.lastFrameTime (f.ticks % 4294967296))

/-- Execute the loop body over a list of frames unconditionally,
accumulating state and calls (helper for stating what "the first k
frames" performed). -/
def runFrames (n : Nat) : LoopState → List Frame → LoopState × List Call
  | st, [] => (st, [])
  | st, f :: rest =>
    ((runFrames n (frameStep n st f).1 rest).1,
      (frameStep n st f).2 ++ (runFrames n (frameStep n st f).1 rest).2)

/-- The `for running` loop: the condition is checked at the top of each
iteration; frames feed successive iterations.  `some ()` means the loop
exited normally; `none` means the supplied frames were exhausted with
`running` still true (the real loop would keep going). -/
def runLoop (n : Nat) : LoopState → List Frame → Option Unit × List Call
  | st, [] => (if st.running then none else some (), [])
  | st, f :: rest =>
    if st.running then
      ((runLoop n (frameStep n st f).1 rest).1,
        (frameStep n st f).2 ++ (runLoop n (frameStep n st f).1 rest).2)
    else (some (), [])

/-- The SDL backend and registered drawables, as `Run` observes them. -/
structure Env where
  windowOk : Bool
  rendererOk : Bool
  numDrawables : Nat
  initTicks : Nat
  frames : List Frame
deriving DecidableEq

/-- Loop state right before the first iteration: `running = true`,
`fullscreen = false`, `lastFrameTime = sdl.GetTicks()`. -/
def initState (env : Env) : LoopState := ⟨true, false, env.initTicks % 4294967296⟩

/-- The `Init` dispatch loop: one `Init` per registered drawable, in
registration order. -/
def initCalls : Nat → List Call
  | 0 => []
  | n + 1 => initCalls n ++ [Call.init n]

/-- `SDLCanvas.Run`: create the window (failure: return 1, nothing else
happened), create the renderer (failure: return 2 after the deferred
window destroy), clear, init every drawable, run the loop, and on exit run
the deferred renderer then window destroys and return 0.  The status is
`none` when the frames of the environment end with the loop still running. -/
def Run (env : Env) : Option Nat × List Call :=
  if env.windowOk = false then (some 1, [Call.createWindow])
  else if env.rendererOk = false then
    (some 2, [Call.createWindow, Call.createRenderer, Call.destroyWindow])
  else
    match (runLoop env.numDrawables (initState env) env.frames).1 with
    | some _ =>
      (some 0,
        [Call.createWindow, Call.createRenderer, Call.clear]
          ++ initCalls env.numDrawables
          ++ (runLoop env.numDrawables (initState env) env.frames).2
          ++ [Call.destroyRenderer, Call.destroyWindow])
    | none =>
      (none,
        [Call.createWindow, Call.createRenderer, Call.clear]
          ++ initCalls env.numDrawables
          ++ (runLoop env.numDrawables (initState env) env.frames).2)

/-- `SDLCanvas.DrawPoints`: one queued closure that sets the draw color
(channels through the Go `uint8` conversion) and submits one batched point
draw of the converted points. -/
def DrawPoints (points : List Point) (color : Color) : List Call :=
  [Call.setDrawColor (uint8 color.R) (uint8 color.G) (uint8 color.B) (uint8 color.A),
   Call.drawPointsBatch (points.map pointToSDL)]

/-- Recognizer for the batched point-draw backend call. -/
def isPointDraw : Call → Bool
  | Call.drawPointsBatch _ => true
  | _ => false

/-- Recognizer for `SetFullscreen` backend calls. -/
def isSetFullscreen : Call → Bool
  | Call.setFullscreen _ => true
  | _ => false


/-! ## General lemmas about the embedded operations -/

lemma drawPhase_mem : ∀ (n : Nat) (c : Call), c ∈ drawPhase n →
    ∃ i, i < n ∧ (c = Call.draw i ∨ c = Call.update i) := by
  intro n
  induction n with
  | zero => intro c h; simp [drawPhase] at h
  | succ m ih =>
    intro c h
    simp only [drawPhase, List.mem_append] at h
    rcases h with h1 | h2
    · obtain ⟨i, hi, hc⟩ := ih c h1
      exact ⟨i, Nat.lt_succ_of_lt hi, hc⟩
    · simp only [List.mem_cons, List.not_mem_nil, or_false] at h2
      rcases h2 with h2 | h2 <;> exact ⟨m, Nat.lt_succ_self m, by simp [h2]⟩

lemma drawPhase_mem_of_lt (n i : Nat) (h : i < n) :
    Call.draw i ∈ drawPhase n ∧ Call.update i ∈ drawPhase n := by
  induction n with
  | zero => omega
  | succ m ih =>
    by_cases hi : i < m
    · obtain ⟨h1, h2⟩ := ih hi
      exact ⟨by simp [drawPhase, h1], by simp [drawPhase, h2]⟩
    · have hieq : i = m := by omega
      subst hieq
      exact ⟨by simp [drawPhase], by simp [drawPhase]⟩

lemma drawPhase_split (n i : Nat) (h : i < n) :
    ∃ T, drawPhase n = drawPhase i ++ [Call.draw i, Call.update i] ++ T
      ∧ ∀ c ∈ T, ∃ j, i < j ∧ j < n ∧ (c = Call.draw j ∨ c = Call.update j) := by
  induction n with
  | zero => omega
  | succ m ih =>
    by_cases hi : i < m
    · obtain ⟨T, hT, hprop⟩ := ih hi
      refine ⟨T ++ [Call.draw m, Call.update m], ?_, ?_⟩
      · simp only [drawPhase, hT, List.append_assoc]
      · intro c hc
        rcases List.mem_append.mp hc with h1 | h2
        · obtain ⟨j, hj1, hj2, hj3⟩ := hprop c h1
          exact ⟨j, hj1, by omega, hj3⟩
        · simp only [List.mem_cons, List.not_mem_nil, or_false] at h2
          rcases h2 with h2 | h2 <;> exact ⟨m, by omega, by omega, by simp [h2]⟩
    · have hieq : i = m := by omega
      subst hieq
      exact ⟨[], by simp [drawPhase], by simp⟩

lemma procEvents_calls : ∀ (evs : List Ev) (r fs : Bool) (c : Call),
    c ∈ (procEvents r fs evs).2 → ∃ b, c = Call.setFullscreen b := by
  intro evs
  induction evs with
  | nil => intro r fs c h; simp [procEvents] at h
  | cons e rest ih =>
    intro r fs c h
    cases e with
    | quit => exact ih false fs c h
    | keyUp k =>
      cases k with
      | q => exact ih false fs c h
      | other => exact ih r fs c h
      | f =>
        simp only [procEvents, List.mem_cons] at h
        rcases h with h1 | h2
        · exact ⟨_, h1⟩
        · exact ih r (!fs) c h2

lemma procEvents_fst_false : ∀ (evs : List Ev) (fs : Bool),
    (procEvents false fs evs).1.1 = false := by
  intro evs
  induction evs with
  | nil => intro fs; rfl
  | cons e rest ih =>
    intro fs
    cases e with
    | quit => exact ih fs
    | keyUp k =>
      cases k with
      | q => exact ih fs
      | other => exact ih fs
      | f => exact ih (!fs)

lemma procEvents_no_quit : ∀ (evs : List Ev) (r fs : Bool),
    (∀ e ∈ evs, quitish e = false) → (procEvents r fs evs).1.1 = r := by
  intro evs
  induction evs with
  | nil => intro r fs _; rfl
  | cons e rest ih =>
    intro r fs h
    have hhead := h e (List.mem_cons_self e rest)
    have htail : ∀ e ∈ rest, quitish e = false :=
      fun e he => h e (List.mem_cons_of_mem _ he)
    cases e with
    | quit => simp [quitish] at hhead
    | keyUp k =>
      cases k with
      | q => simp [quitish] at hhead
      | other => exact ih r fs htail
      | f => exact ih r (!fs) htail

lemma procEvents_has_quit : ∀ (evs : List Ev) (r fs : Bool),
    (∃ e ∈ evs, quitish e = true) → (procEvents r fs evs).1.1 = false := by
  intro evs
  induction evs with
  | nil => intro r fs h; simp at h
  | cons e rest ih =>
    intro r fs h
    cases e with
    | quit => exact procEvents_fst_false rest fs
    | keyUp k =>
      cases k with
      | q => exact procEvents_fst_false rest fs
      | other =>
        obtain ⟨e', he', hq⟩ := h
        rcases List.mem_cons.mp he' with he1 | he2
        · subst he1; simp [quitish] at hq
        · exact ih r fs ⟨e', he2, hq⟩
      | f =>
        obtain ⟨e', he', hq⟩ := h
        rcases List.mem_cons.mp he' with he1 | he2
        · subst he1; simp [quitish] at hq
        · exact ih r (!fs) ⟨e', he2, hq⟩

lemma framePace_mem (last cur : Nat) (c : Call) (h : c ∈ framePace last cur) :
    ∃ d, c = Call.delay d ∧ 0 < d ∧ d ≤ frameTime := by
  unfold framePace at h
  by_cases hc : sub32 cur last < frameTime
  · rw [if_pos hc] at h
    simp only [List.mem_cons, List.not_mem_nil, or_false] at h
    exact ⟨frameTime - sub32 cur last, h, by omega, by omega⟩
  · rw [if_neg hc] at h
    simp at h

lemma delay_not_mem_framePre (n : Nat) (st : LoopState) (f : Frame) (d : Nat) :
    Call.delay d ∉ framePre n st f := by
  intro hmem
  unfold framePre at hmem
  rcases List.mem_append.mp hmem with h1 | h2
  · rcases List.mem_append.mp h1 with h3 | h4
    · obtain ⟨b, hb⟩ := procEvents_calls _ _ _ _ h3
      simp at hb
    · simp at h4
  · obtain ⟨i, _, hc⟩ := drawPhase_mem n _ h2
    rcases hc with hc | hc <;> simp at hc

lemma frameStep_mem (n : Nat) (st : LoopState) (f : Frame) (c : Call)
    (h : c ∈ (frameStep n st f).2) :
    (∃ b, c = Call.setFullscreen b) ∨ c = Call.setDrawColor 0 0 0 255 ∨ c = Call.clear
      ∨ (∃ i, i < n ∧ (c = Call.draw i ∨ c = Call.update i)) ∨ c = Call.present
      ∨ ∃ d, c = Call.delay d := by
  have h0 : c ∈ framePre n st f ++ [Call.present]
      ++ framePace st.lastFrameTime (f.ticks % 4294967296) := h
  rcases List.mem_append.mp h0 with h1 | h2
  · rcases List.mem_append.mp h1 with h3 | h4
    · unfold framePre at h3
      rcases List.mem_append.mp h3 with h5 | h6
      · rcases List.mem_append.mp h5 with h7 | h8
        · exact Or.inl (procEvents_calls _ _ _ _ h7)
        · rcases List.mem_cons.mp h8 with h9 | h10
          · exact Or.inr (Or.inl h9)
          · rcases List.mem_cons.mp h10 with h11 | h12
            · exact Or.inr (Or.inr (Or.inl h11))
            · simp at h12
      · exact Or.inr (Or.inr (Or.inr (Or.inl (drawPhase_mem n _ h6))))
    · rcases List.mem_cons.mp h4 with h9 | h10
      · exact Or.inr (Or.inr (Or.inr (Or.inr (Or.inl h9))))
      · simp at h10
  · obtain ⟨dd, hd, _, _⟩ := framePace_mem _ _ _ h2
    exact Or.inr (Or.inr (Or.inr (Or.inr (Or.inr ⟨dd, hd⟩))))

lemma sub32_eq (l t : Nat) (h1 : l ≤ t) (h2 : t < 4294967296) : sub32 t l = t - l := by
  unfold sub32
  have he : t + 4294967296 - l = (t - l) + 4294967296 := by omega
  rw [he, Nat.add_mod_right]
  exact Nat.mod_eq_of_lt (by omega)

lemma getD_map_pointToSDL : ∀ (l : List Point) (i : Nat), i < l.length →
    (l.map pointToSDL).getD i ⟨0, 0⟩ = pointToSDL (l.getD i ⟨0, 0⟩) := by
  intro l
  induction l with
  | nil => intro i h; simp at h
  | cons p t ih =>
    intro i h
    cases i with
    | zero => rfl
    | succ j =>
      have hj : j < t.length := by simpa using h
      simpa using ih j hj

/-! ## Claims about DrawPoints (C8, C9, C10) -/

/-- Claim C8, counterexample to the claim as stated: with an empty point set
the code still submits a batched point-draw call to the backend (the Go code
calls `renderer.DrawPoints(sdlPoints)` unconditionally), so the number of
backend point-draw calls is not zero. -/
theorem claim_C8_cex :
    ¬ List.countP isPointDraw (DrawPoints [] ⟨0, 0, 0, 255⟩) = 0 := by decide

/-- Claim C8 (amended): DrawPoints with an empty point set and any color
performs no per-point work and does not error, but it is not backend-silent:
it sets the draw color and submits exactly one batched point-draw call whose
batch is empty (zero points drawn). -/
theorem claim_C8 (c : Color) :
    DrawPoints [] c
      = [Call.setDrawColor (uint8 c.R) (uint8 c.G) (uint8 c.B) (uint8 c.A),
         Call.drawPointsBatch []]
    ∧ List.countP isPointDraw (DrawPoints [] c) = 1 := ⟨rfl, rfl⟩

/-- Claim C9, counterexample to the claim as stated: the out-of-range red
channel 256 is not passed through to the backend unmodified; the backend
receives 0 (the Go `uint8` conversion truncates modulo 256 inside
DrawPoints, before the value reaches the backend). -/
theorem claim_C9_cex :
    Call.setDrawColor 0 0 0 255 ∈ DrawPoints [] ⟨256, 0, 0, 255⟩
    ∧ Call.setDrawColor 256 0 0 255 ∉ DrawPoints [] ⟨256, 0, 0, 255⟩ := by decide

/-- Claim C9 (amended): no validation of channel ranges is performed, but
each channel is truncated to its low 8 bits (reduced modulo 256 by the Go
`uint8` conversion) by DrawPoints itself before being handed to the backend;
channels already in 0..255 are passed through unmodified. -/
theorem claim_C9 (pts : List Point) (c : Color) :
    DrawPoints pts c
      = [Call.setDrawColor (uint8 c.R) (uint8 c.G) (uint8 c.B) (uint8 c.A),
         Call.drawPointsBatch (pts.map pointToSDL)]
    ∧ (0 ≤ c.R → c.R < 256 → (uint8 c.R : Int) = c.R)
    ∧ (0 ≤ c.G → c.G < 256 → (uint8 c.G : Int) = c.G)
    ∧ (0 ≤ c.B → c.B < 256 → (uint8 c.B : Int) = c.B)
    ∧ (0 ≤ c.A → c.A < 256 → (uint8 c.A : Int) = c.A) := by
  refine ⟨rfl, ?_, ?_, ?_, ?_⟩ <;>
    { intro h1 h2
      unfold uint8
      rw [Int.emod_eq_of_lt h1 h2]
      exact Int.toNat_of_nonneg h1 }

/-- Claim C9 witness: an in-range channel value (7) is passed through
unchanged. -/
theorem claim_C9_witness : (0 : Int) ≤ 7 ∧ (7 : Int) < 256 ∧ (uint8 7 : Int) = 7 :=
  ⟨by decide, by decide, (claim_C9 [] ⟨7, 8, 9, 10⟩).2.1 (by decide) (by decide)⟩

/-- Claim C10: DrawPoints submits exactly one backend batched point-draw
call; the batch has the same length as the input, its element at index i is
the input point at index i converted to signed 32-bit coordinates, in the
same order, and every converted coordinate lies in the int32 range. -/
theorem claim_C10 (pts : List Point) (c : Color) :
    List.filter isPointDraw (DrawPoints pts c)
      = [Call.drawPointsBatch (pts.map pointToSDL)]
    ∧ (pts.map pointToSDL).length = pts.length
    ∧ (∀ i, i < pts.length →
        (pts.map pointToSDL).getD i ⟨0, 0⟩ = pointToSDL (pts.getD i ⟨0, 0⟩))
    ∧ (∀ p : Point, -2147483648 ≤ (pointToSDL p).X ∧ (pointToSDL p).X < 2147483648
        ∧ -2147483648 ≤ (pointToSDL p).Y ∧ (pointToSDL p).Y < 2147483648) := by
  refine ⟨rfl, List.length_map _ _, fun i h => getD_map_pointToSDL pts i h, fun p => ?_⟩
  have hx0 : (0 : Int) ≤ (p.X + 2147483648) % 4294967296 :=
    Int.emod_nonneg _ (by norm_num)
  have hx1 : (p.X + 2147483648) % 4294967296 < 4294967296 :=
    Int.emod_lt_of_pos _ (by norm_num)
  have hy0 : (0 : Int) ≤ (p.Y + 2147483648) % 4294967296 :=
    Int.emod_nonneg _ (by norm_num)
  have hy1 : (p.Y + 2147483648) % 4294967296 < 4294967296 :=
    Int.emod_lt_of_pos _ (by norm_num)
  unfold pointToSDL int32
  refine ⟨by dsimp; omega, by dsimp; omega, by dsimp; omega, by dsimp; omega⟩

/-- Claim C10 witness: with two concrete points (one with out-of-range
coordinates) the batch element at index 1 is the converted input point. -/
theorem claim_C10_witness :
    (1 : Nat) < ([⟨1, 2⟩, ⟨2147483648, -1⟩] : List Point).length
    ∧ (([⟨1, 2⟩, ⟨2147483648, -1⟩] : List Point).map pointToSDL).getD 1 ⟨0, 0⟩
        = pointToSDL (([⟨1, 2⟩, ⟨2147483648, -1⟩] : List Point).getD 1 ⟨0, 0⟩) :=
  ⟨by decide, (claim_C10 [⟨1, 2⟩, ⟨2147483648, -1⟩] ⟨0, 0, 0, 0⟩).2.2.1 1 (by decide)⟩

/-! ## Error-path claims (C3, C4) -/

/-- Claim C3: if window creation fails, Run returns 1, no renderer creation
is attempted, and no drawable receives any Init, Draw, or Update call. -/
theorem claim_C3 (env : Env) (hw : env.windowOk = false) :
    (Run env).1 = some 1
    ∧ (Run env).2 = [Call.createWindow]
    ∧ Call.createRenderer ∉ (Run env).2
    ∧ (∀ i, Call.init i ∉ (Run env).2 ∧ Call.draw i ∉ (Run env).2
        ∧ Call.update i ∉ (Run env).2) := by
  have ht : Run env = (some 1, [Call.createWindow]) := by simp [Run, hw]
  exact ⟨by rw [ht], by rw [ht], by simp [ht],
    fun i => ⟨by simp [ht], by simp [ht], by simp [ht]⟩⟩

/-- Claim C3 witness: a concrete environment whose window creation fails. -/
theorem claim_C3_witness :
    (⟨false, true, 3, 0, []⟩ : Env).windowOk = false
    ∧ (Run ⟨false, true, 3, 0, []⟩).1 = some 1 :=
  ⟨rfl, (claim_C3 ⟨false, true, 3, 0, []⟩ rfl).1⟩

/-- Claim C4: if renderer creation fails after the window was created, Run
returns 2, the deferred cleanup still destroys the window before Run
returns, and no drawable receives any Init, Draw, or Update call. -/
theorem claim_C4 (env : Env) (hw : env.windowOk = true) (hr : env.rendererOk = false) :
    (Run env).1 = some 2
    ∧ (Run env).2 = [Call.createWindow, Call.createRenderer, Call.destroyWindow]
    ∧ Call.destroyWindow ∈ (Run env).2
    ∧ (∀ i, Call.init i ∉ (Run env).2 ∧ Call.draw i ∉ (Run env).2
        ∧ Call.update i ∉ (Run env).2) := by
  have ht : Run env
      = (some 2, [Call.createWindow, Call.createRenderer, Call.destroyWindow]) := by
    simp [Run, hw, hr]
  exact ⟨by rw [ht], by rw [ht], by simp [ht],
    fun i => ⟨by simp [ht], by simp [ht], by simp [ht]⟩⟩

/-- Claim C4 witness: a concrete environment whose renderer creation fails. -/
theorem claim_C4_witness :
    (⟨true, false, 3, 0, []⟩ : Env).rendererOk = false
    ∧ (Run ⟨true, false, 3, 0, []⟩).1 = some 2
    ∧ Call.destroyWindow ∈ (Run ⟨true, false, 3, 0, []⟩).2 :=
  ⟨rfl, (claim_C4 ⟨true, false, 3, 0, []⟩ rfl rfl).1,
    (claim_C4 ⟨true, false, 3, 0, []⟩ rfl rfl).2.2.1⟩

/-! ## Per-frame dispatch order (C2) and frame pacing (C7) -/

/-- Claim C2: within every single frame, for each registered drawable i,
Draw(i) is immediately followed by Update(i), every Draw/Update of a
drawable with index at least i comes after that pair, and every Draw/Update
of a drawable with index at most i comes before it: strict per-drawable
interleaving, not a phase-separated batch. -/
theorem claim_C2 (n : Nat) (st : LoopState) (f : Frame) (i : Nat) (h : i < n) :
    ∃ P Q, (frameStep n st f).2 = P ++ [Call.draw i, Call.update i] ++ Q
      ∧ (∀ j, i ≤ j → Call.draw j ∉ P ∧ Call.update j ∉ P)
      ∧ (∀ j, j ≤ i → Call.draw j ∉ Q ∧ Call.update j ∉ Q) := by
  obtain ⟨T, hT, hTprop⟩ := drawPhase_split n i h
  refine ⟨(procEvents st.running st.fullscreen f.events).2
      ++ [Call.setDrawColor 0 0 0 255, Call.clear] ++ drawPhase i,
    T ++ [Call.present] ++ framePace st.lastFrameTime (f.ticks % 4294967296),
    ?_, ?_, ?_⟩
  · show framePre n st f ++ [Call.present]
        ++ framePace st.lastFrameTime (f.ticks % 4294967296) = _
    unfold framePre
    rw [hT]
    simp [List.append_assoc]
  · intro j hij
    constructor <;>
      { intro hmem
        rcases List.mem_append.mp hmem with h1 | h2
        · rcases List.mem_append.mp h1 with h3 | h4
          · obtain ⟨b, hb⟩ := procEvents_calls _ _ _ _ h3
            simp at hb
          · simp at h4
        · obtain ⟨k, hk, hc⟩ := drawPhase_mem i _ h2
          rcases hc with hc | hc <;> first | (simp at hc; omega) | simp at hc }
  · intro j hij
    constructor <;>
      { intro hmem
        rcases List.mem_append.mp hmem with h1 | h2
        · rcases List.mem_append.mp h1 with h3 | h4
          · obtain ⟨k, hk1, hk2, hc⟩ := hTprop _ h3
            rcases hc with hc | hc <;> first | (simp at hc; omega) | simp at hc
          · simp at h4
        · obtain ⟨d, hd, _, _⟩ := framePace_mem _ _ _ h2
          simp at hd }

/-- Claim C2 witness: a concrete frame with two drawables, instantiated at
drawable 0. -/
theorem claim_C2_witness :
    ∃ P Q, (frameStep 2 ⟨true, false, 0⟩ ⟨[], 0⟩).2
        = P ++ [Call.draw 0, Call.update 0] ++ Q
      ∧ (∀ j, 0 ≤ j → Call.draw j ∉ P ∧ Call.update j ∉ P)
      ∧ (∀ j, j ≤ 0 → Call.draw j ∉ Q ∧ Call.update j ∉ Q) :=
  claim_C2 2 ⟨true, false, 0⟩ ⟨[], 0⟩ 0 (by decide)

/-- Claim C7: the frame budget is 1000/90 = 11 ms (integer-truncated); if
the elapsed time since the last-frame timestamp is below the budget the
frame ends with a delay of exactly the remaining budget, if it is at least
the budget no delay call occurs, and any delay ever emitted by a frame is
positive (no negative delay is requested). -/
theorem claim_C7 (n : Nat) (st : LoopState) (f : Frame)
    (h1 : st.lastFrameTime ≤ f.ticks) (h2 : f.ticks < 4294967296) :
    frameTime = 11
    ∧ (f.ticks - st.lastFrameTime < frameTime →
        (frameStep n st f).2
          = framePre n st f
            ++ [Call.present, Call.delay (frameTime - (f.ticks - st.lastFrameTime))]
        ∧ 0 < frameTime - (f.ticks - st.lastFrameTime))
    ∧ (frameTime ≤ f.ticks - st.lastFrameTime →
        (frameStep n st f).2 = framePre n st f ++ [Call.present]
        ∧ ∀ d, Call.delay d ∉ (frameStep n st f).2)
    ∧ (∀ d, Call.delay d ∈ (frameStep n st f).2 → 0 < d ∧ d ≤ frameTime) := by
  have hmod : f.ticks % 4294967296 = f.ticks := Nat.mod_eq_of_lt h2
  have hsub : sub32 (f.ticks % 4294967296) st.lastFrameTime
      = f.ticks - st.lastFrameTime := by
    rw [hmod]
    exact sub32_eq _ _ h1 h2
  have hshape : (frameStep n st f).2
      = framePre n st f ++ [Call.present]
        ++ framePace st.lastFrameTime (f.ticks % 4294967296) := rfl
  refine ⟨by decide, ?_, ?_, ?_⟩
  · intro hlt
    have hpace : framePace st.lastFrameTime (f.ticks % 4294967296)
        = [Call.delay (frameTime - (f.ticks - st.lastFrameTime))] := by
      unfold framePace
      rw [hsub, if_pos hlt]
    refine ⟨?_, by omega⟩
    rw [hshape, hpace]
    simp
  · intro hge
    have hpace : framePace st.lastFrameTime (f.ticks % 4294967296) = [] := by
      unfold framePace
      rw [hsub, if_neg (by omega)]
    refine ⟨by rw [hshape, hpace]; simp, ?_⟩
    intro d hmem
    rw [hshape, hpace] at hmem
    rcases List.mem_append.mp hmem with hm | hm
    · rcases List.mem_append.mp hm with hm2 | hm2
      · exact delay_not_mem_framePre n st f d hm2
      · simp at hm2
    · simp at hm
  · intro d hmem
    rw [hshape] at hmem
    rcases List.mem_append.mp hmem with hm | hm
    · rcases List.mem_append.mp hm with hm2 | hm2
      · exact absurd hm2 (delay_not_mem_framePre n st f d)
      · simp at hm2
    · obtain ⟨dd, hdd, hp, hb⟩ := framePace_mem _ _ _ hm
      have : d = dd := by simpa using hdd
      subst this
      exact ⟨hp, hb⟩

/-- Claim C7 witness: elapsed time 5 ms against the 11 ms budget yields a
delay of exactly 6 ms after the present. -/
theorem claim_C7_witness :
    (5 : Nat) ≤ 10 ∧ (10 : Nat) < 4294967296
    ∧ (frameStep 0 ⟨true, false, 5⟩ ⟨[], 10⟩).2
        = framePre 0 ⟨true, false, 5⟩ ⟨[], 10⟩ ++ [Call.present, Call.delay 6] := by
  refine ⟨by decide, by decide, ?_⟩
  have h := ((claim_C7 0 ⟨true, false, 5⟩ ⟨[], 10⟩ (by decide) (by decide)).2.1
    (by decide)).1
  have h6 : frameTime - ((10 : Nat) - 5) = 6 := by decide
  rw [h6] at h
  exact h

/-! ## Loop-level lemmas -/

lemma frameStep_no_init (n : Nat) (st : LoopState) (f : Frame) (i : Nat) :
    Call.init i ∉ (frameStep n st f).2 := by
  intro hmem
  simpa using frameStep_mem n st f _ hmem

lemma runLoop_no_init (n : Nat) : ∀ (fs : List Frame) (st : LoopState) (i : Nat),
    Call.init i ∉ (runLoop n st fs).2 := by
  intro fs
  induction fs with
  | nil => intro st i hmem; simp [runLoop] at hmem
  | cons f rest ih =>
    intro st i hmem
    by_cases h : st.running = true
    · have hsh : (runLoop n st (f :: rest)).2
          = (frameStep n st f).2 ++ (runLoop n (frameStep n st f).1 rest).2 := by
        simp [runLoop, h]
      rw [hsh] at hmem
      rcases List.mem_append.mp hmem with h1 | h2
      · exact frameStep_no_init n st f i h1
      · exact ih _ i h2
    · have hb : st.running = false := by revert h; cases st.running <;> simp
      have hsh : (runLoop n st (f :: rest)).2 = [] := by simp [runLoop, hb]
      rw [hsh] at hmem
      simp at hmem

lemma initCalls_eq_range : ∀ n : Nat, initCalls n = (List.range n).map Call.init := by
  intro n
  induction n with
  | zero => rfl
  | succ m ih => simp [initCalls, List.range_succ, ih]

lemma initCalls_mem : ∀ (n : Nat) (c : Call), c ∈ initCalls n →
    ∃ i, i < n ∧ c = Call.init i := by
  intro n
  induction n with
  | zero => intro c h; simp [initCalls] at h
  | succ m ih =>
    intro c h
    simp only [initCalls, List.mem_append] at h
    rcases h with h1 | h2
    · obtain ⟨i, hi, hc⟩ := ih c h1
      exact ⟨i, Nat.lt_succ_of_lt hi, hc⟩
    · simp only [List.mem_cons, List.not_mem_nil, or_false] at h2
      exact ⟨m, Nat.lt_succ_self m, h2⟩

lemma count_init_singleton (i m : Nat) :
    List.count (Call.init i) [Call.init m] = if i = m then 1 else 0 := by
  by_cases him : i = m
  · subst him
    simp
  · rw [if_neg him, List.count_eq_zero]
    simp [him]

lemma initCalls_count : ∀ (n i : Nat), i < n →
    List.count (Call.init i) (initCalls n) = 1 := by
  intro n
  induction n with
  | zero => intro i h; omega
  | succ m ih =>
    intro i h
    simp only [initCalls, List.count_append, count_init_singleton]
    by_cases hi : i < m
    · rw [ih i hi, if_neg (by omega)]
    · have hieq : i = m := by omega
      have hz : List.count (Call.init i) (initCalls m) = 0 := by
        rw [List.count_eq_zero]
        intro hmem
        obtain ⟨j, hj, hc⟩ := initCalls_mem m _ hmem
        have : i = j := by simpa using hc
        omega
      rw [hz, if_pos hieq]

lemma frameStep_mem_basic (n : Nat) (st : LoopState) (f : Frame) :
    Call.clear ∈ (frameStep n st f).2 ∧ Call.present ∈ (frameStep n st f).2
    ∧ ∀ i, i < n → Call.draw i ∈ (frameStep n st f).2
        ∧ Call.update i ∈ (frameStep n st f).2 := by
  have hshape : (frameStep n st f).2
      = framePre n st f ++ [Call.present]
        ++ framePace st.lastFrameTime (f.ticks % 4294967296) := rfl
  refine ⟨?_, ?_, ?_⟩
  · rw [hshape]
    unfold framePre
    simp
  · rw [hshape]
    simp
  · intro i hi
    obtain ⟨h1, h2⟩ := drawPhase_mem_of_lt n i hi
    constructor <;>
      { rw [hshape]
        unfold framePre
        simp [h1, h2] }

lemma runFrames_running_true (n : Nat) : ∀ (fs : List Frame) (st : LoopState),
    st.running = true → (∀ fr ∈ fs, ∀ e ∈ fr.events, quitish e = false) →
    (runFrames n st fs).1.running = true := by
  intro fs
  induction fs with
  | nil => intro st h _; exact h
  | cons f rest ih =>
    intro st h hq
    have hstep : (frameStep n st f).1.running = true := by
      show (procEvents st.running st.fullscreen f.events).1.1 = true
      rw [procEvents_no_quit _ _ _ (hq f (List.mem_cons_self f rest))]
      exact h
    exact ih (frameStep n st f).1 hstep (fun fr hfr => hq fr (List.mem_cons_of_mem _ hfr))

lemma runLoop_stopped (n : Nat) (fs : List Frame) (st : LoopState)
    (h : st.running = false) : runLoop n st fs = (some (), []) := by
  cases fs with
  | nil => simp [runLoop, h]
  | cons f rest => simp [runLoop, h]

lemma runLoop_split_noquit (n : Nat) : ∀ (fs₁ l : List Frame) (st : LoopState),
    st.running = true → (∀ fr ∈ fs₁, ∀ e ∈ fr.events, quitish e = false) →
    runLoop n st (fs₁ ++ l)
      = ((runLoop n (runFrames n st fs₁).1 l).1,
         (runFrames n st fs₁).2 ++ (runLoop n (runFrames n st fs₁).1 l).2) := by
  intro fs₁
  induction fs₁ with
  | nil => intro l st h _; simp [runFrames]
  | cons f rest ih =>
    intro l st h hq
    have hstep : (frameStep n st f).1.running = true := by
      show (procEvents st.running st.fullscreen f.events).1.1 = true
      rw [procEvents_no_quit _ _ _ (hq f (List.mem_cons_self f rest))]
      exact h
    have htail : ∀ fr ∈ rest, ∀ e ∈ fr.events, quitish e = false :=
      fun fr hfr => hq fr (List.mem_cons_of_mem _ hfr)
    rw [List.cons_append]
    simp only [runLoop, h, if_true]
    rw [ih l (frameStep n st f).1 hstep htail]
    simp [runFrames, List.append_assoc]

lemma runLoop_none_of_noquit (n : Nat) : ∀ (fs : List Frame) (st : LoopState),
    st.running = true → (∀ fr ∈ fs, ∀ e ∈ fr.events, quitish e = false) →
    (runLoop n st fs).1 = none := by
  intro fs
  induction fs with
  | nil => intro st h _; simp [runLoop, h]
  | cons f rest ih =>
    intro st h hq
    have hstep : (frameStep n st f).1.running = true := by
      show (procEvents st.running st.fullscreen f.events).1.1 = true
      rw [procEvents_no_quit _ _ _ (hq f (List.mem_cons_self f rest))]
      exact h
    have hrec := ih (frameStep n st f).1 hstep
      (fun fr hfr => hq fr (List.mem_cons_of_mem _ hfr))
    simp [runLoop, h, hrec]

lemma procEvents_allf : ∀ (evs : List Ev) (r fs : Bool),
    (∀ e ∈ evs, e = Ev.keyUp Key.f) →
    (procEvents r fs evs).1.1 = r
    ∧ (procEvents r fs evs).1.2 = Bool.xor fs (decide (evs.length % 2 = 1))
    ∧ List.countP isSetFullscreen (procEvents r fs evs).2 = evs.length := by
  intro evs
  induction evs with
  | nil =>
    intro r fs _
    exact ⟨rfl, by simp [procEvents], rfl⟩
  | cons e rest ih =>
    intro r fs h
    have he : e = Ev.keyUp Key.f := h e (List.mem_cons_self e rest)
    subst he
    obtain ⟨ih1, ih2, ih3⟩ := ih r (!fs) (fun e2 he2 => h e2 (List.mem_cons_of_mem _ he2))
    refine ⟨ih1, ?_, ?_⟩
    · show (procEvents r (!fs) rest).1.2 = _
      rw [ih2]
      rcases Nat.mod_two_eq_zero_or_one rest.length with hm | hm
      · have hm1 : (rest.length + 1) % 2 = 1 := by omega
        simp [hm, hm1]
      · have hm1 : (rest.length + 1) % 2 = 0 := by omega
        simp [hm, hm1]
    · show List.countP isSetFullscreen
          (Call.setFullscreen (if !fs then windowFullscreenFlag else 0)
            :: (procEvents r (!fs) rest).2) = (Ev.keyUp Key.f :: rest).length
      rw [List.countP_cons]
      simp [isSetFullscreen, ih3]

/-! ## Lifecycle and loop claims (C1, C5, C6) -/

/-- Claim C1: with backend creation succeeding, the Run trace is exactly
createWindow, createRenderer, clear, then one Init per registered drawable
in registration order (the range map), followed by a remainder containing
no Init; no Draw or Update occurs at or before the Init block, and each
drawable receives Init exactly once over the whole trace. -/
theorem claim_C1 (env : Env) (hw : env.windowOk = true) (hr : env.rendererOk = true) :
    ∃ B, (Run env).2
        = [Call.createWindow, Call.createRenderer, Call.clear]
          ++ initCalls env.numDrawables ++ B
      ∧ initCalls env.numDrawables = (List.range env.numDrawables).map Call.init
      ∧ (∀ i, Call.init i ∉ B)
      ∧ (∀ i, Call.draw i
            ∉ [Call.createWindow, Call.createRenderer, Call.clear]
              ++ initCalls env.numDrawables
          ∧ Call.update i
            ∉ [Call.createWindow, Call.createRenderer, Call.clear]
              ++ initCalls env.numDrawables)
      ∧ (∀ i, i < env.numDrawables → List.count (Call.init i) (Run env).2 = 1) := by
  have hB : ∃ B, (Run env).2
      = [Call.createWindow, Call.createRenderer, Call.clear]
        ++ initCalls env.numDrawables ++ B
      ∧ ∀ i, Call.init i ∉ B := by
    rcases hcase : (runLoop env.numDrawables (initState env) env.frames).1 with _ | u
    · exact ⟨(runLoop env.numDrawables (initState env) env.frames).2,
        by simp [Run, hw, hr, hcase],
        fun i => runLoop_no_init env.numDrawables env.frames (initState env) i⟩
    · refine ⟨(runLoop env.numDrawables (initState env) env.frames).2
          ++ [Call.destroyRenderer, Call.destroyWindow],
        by simp [Run, hw, hr, hcase], ?_⟩
      intro i hmem
      rcases List.mem_append.mp hmem with h1 | h2
      · exact runLoop_no_init env.numDrawables env.frames (initState env) i h1
      · simp at h2
  obtain ⟨B, htr, hBinit⟩ := hB
  refine ⟨B, htr, initCalls_eq_range _, hBinit, ?_, ?_⟩
  · intro i
    constructor <;>
      { intro hmem
        rcases List.mem_append.mp hmem with h1 | h2
        · simp at h1
        · obtain ⟨j, _, hj⟩ := initCalls_mem _ _ h2
          simp at hj }
  · intro i hi
    rw [htr, List.count_append, List.count_append]
    have hz1 : List.count (Call.init i)
        [Call.createWindow, Call.createRenderer, Call.clear] = 0 := by
      rw [List.count_eq_zero]
      simp
    have hz2 : List.count (Call.init i) B = 0 := by
      rw [List.count_eq_zero]
      exact hBinit i
    rw [hz1, hz2, initCalls_count _ i hi]

/-- Claim C1 witness: a concrete successful environment with two drawables
and no loop frames. -/
theorem claim_C1_witness :
    ∃ B, (Run ⟨true, true, 2, 0, []⟩).2
        = [Call.createWindow, Call.createRenderer, Call.clear] ++ initCalls 2 ++ B
      ∧ initCalls 2 = (List.range 2).map Call.init
      ∧ (∀ i, Call.init i ∉ B)
      ∧ (∀ i, Call.draw i
            ∉ [Call.createWindow, Call.createRenderer, Call.clear] ++ initCalls 2
          ∧ Call.update i
            ∉ [Call.createWindow, Call.createRenderer, Call.clear] ++ initCalls 2)
      ∧ (∀ i, i < 2 → List.count (Call.init i) (Run ⟨true, true, 2, 0, []⟩).2 = 1) :=
  claim_C1 ⟨true, true, 2, 0, []⟩ rfl rfl

/-- Claim C5: if the first quit-signaling event (quit event or key-up q)
arrives in frame fk, after quit-free frames fs1, then Run still performs
all of frame fk (its clear, every Draw and Update dispatch, and its
present are in that frame block), exits at the next loop check, runs the
deferred destroys, and returns 0. -/
theorem claim_C5 (env : Env) (fs₁ : List Frame) (fk : Frame) (rest : List Frame)
    (hw : env.windowOk = true) (hr : env.rendererOk = true)
    (hsplit : env.frames = fs₁ ++ fk :: rest)
    (hbefore : ∀ fr ∈ fs₁, ∀ e ∈ fr.events, quitish e = false)
    (hquit : ∃ e ∈ fk.events, quitish e = true) :
    (Run env).1 = some 0
    ∧ (Run env).2
        = [Call.createWindow, Call.createRenderer, Call.clear]
          ++ initCalls env.numDrawables
          ++ (runFrames env.numDrawables (initState env) fs₁).2
          ++ (frameStep env.numDrawables
                (runFrames env.numDrawables (initState env) fs₁).1 fk).2
          ++ [Call.destroyRenderer, Call.destroyWindow]
    ∧ Call.clear ∈ (frameStep env.numDrawables
        (runFrames env.numDrawables (initState env) fs₁).1 fk).2
    ∧ Call.present ∈ (frameStep env.numDrawables
        (runFrames env.numDrawables (initState env) fs₁).1 fk).2
    ∧ (∀ i, i < env.numDrawables →
        Call.draw i ∈ (frameStep env.numDrawables
          (runFrames env.numDrawables (initState env) fs₁).1 fk).2
        ∧ Call.update i ∈ (frameStep env.numDrawables
          (runFrames env.numDrawables (initState env) fs₁).1 fk).2) := by
  have hs1run : (runFrames env.numDrawables (initState env) fs₁).1.running = true :=
    runFrames_running_true env.numDrawables fs₁ (initState env) rfl hbefore
  have hstepf : (frameStep env.numDrawables
      (runFrames env.numDrawables (initState env) fs₁).1 fk).1.running = false := by
    show (procEvents (runFrames env.numDrawables (initState env) fs₁).1.running
        (runFrames env.numDrawables (initState env) fs₁).1.fullscreen fk.events).1.1
      = false
    exact procEvents_has_quit _ _ _ hquit
  have hck : runLoop env.numDrawables
      (runFrames env.numDrawables (initState env) fs₁).1 (fk :: rest)
      = (some (), (frameStep env.numDrawables
          (runFrames env.numDrawables (initState env) fs₁).1 fk).2) := by
    have he := runLoop_stopped env.numDrawables rest
      (frameStep env.numDrawables
        (runFrames env.numDrawables (initState env) fs₁).1 fk).1 hstepf
    simp [runLoop, hs1run, he]
  have hloop : runLoop env.numDrawables (initState env) env.frames
      = (some (), (runFrames env.numDrawables (initState env) fs₁).2
          ++ (frameStep env.numDrawables
              (runFrames env.numDrawables (initState env) fs₁).1 fk).2) := by
    rw [hsplit,
      runLoop_split_noquit env.numDrawables fs₁ (fk :: rest) (initState env) rfl hbefore,
      hck]
  obtain ⟨hclear, hpresent, hdraws⟩ := frameStep_mem_basic env.numDrawables
    (runFrames env.numDrawables (initState env) fs₁).1 fk
  refine ⟨by simp [Run, hw, hr, hloop], ?_, hclear, hpresent, hdraws⟩
  simp [Run, hw, hr, hloop, List.append_assoc]

/-- Claim C5 witness: a single frame containing a quit event; Run returns
0. -/
theorem claim_C5_witness :
    (⟨true, true, 1, 0, [⟨[Ev.quit], 5⟩]⟩ : Env).frames
      = [] ++ (⟨[Ev.quit], 5⟩ : Frame) :: []
    ∧ (Run ⟨true, true, 1, 0, [⟨[Ev.quit], 5⟩]⟩).1 = some 0 :=
  ⟨rfl, (claim_C5 ⟨true, true, 1, 0, [⟨[Ev.quit], 5⟩]⟩ [] ⟨[Ev.quit], 5⟩ [] rfl rfl
    rfl (by decide) (by decide)).1⟩

/-- Claim C6: a toggle-fullscreen key-up flips the fullscreen flag and
immediately emits exactly one SetFullscreen call with the new state;
events that are not quit signals never change the running flag; over any
all-toggle event batch, the number of SetFullscreen calls equals the
number of events and the final fullscreen state is the initial one flipped
once per event (parity); and a run whose frames contain only
toggle-fullscreen events never terminates the loop. -/
theorem claim_C6 :
    (∀ (r fs : Bool) (rest : List Ev),
      procEvents r fs (Ev.keyUp Key.f :: rest)
        = ((procEvents r (!fs) rest).1,
           Call.setFullscreen (if !fs then windowFullscreenFlag else 0)
             :: (procEvents r (!fs) rest).2))
    ∧ (∀ (r fs : Bool) (evs : List Ev),
        (∀ e ∈ evs, quitish e = false) → (procEvents r fs evs).1.1 = r)
    ∧ (∀ (r fs : Bool) (evs : List Ev), (∀ e ∈ evs, e = Ev.keyUp Key.f) →
        (procEvents r fs evs).1.2 = Bool.xor fs (decide (evs.length % 2 = 1))
        ∧ List.countP isSetFullscreen (procEvents r fs evs).2 = evs.length)
    ∧ (∀ env : Env, env.windowOk = true → env.rendererOk = true →
        (∀ fr ∈ env.frames, ∀ e ∈ fr.events, e = Ev.keyUp Key.f) →
        (Run env).1 = none) := by
  refine ⟨fun r fs rest => rfl, fun r fs evs h => procEvents_no_quit evs r fs h,
    fun r fs evs h => ⟨(procEvents_allf evs r fs h).2.1, (procEvents_allf evs r fs h).2.2⟩,
    ?_⟩
  intro env hw hr hall
  have hq : ∀ fr ∈ env.frames, ∀ e ∈ fr.events, quitish e = false := by
    intro fr hfr e he
    rw [hall fr hfr e he]
    rfl
  have hnone := runLoop_none_of_noquit env.numDrawables env.frames (initState env) rfl hq
  simp [Run, hw, hr, hnone]

/-- Claim C6 witness: one toggle leaves running true; three toggles end
with fullscreen on; a run fed only toggle events does not terminate. -/
theorem claim_C6_witness :
    (procEvents true false [Ev.keyUp Key.f]).1.1 = true
    ∧ (procEvents true false [Ev.keyUp Key.f, Ev.keyUp Key.f, Ev.keyUp Key.f]).1.2
        = Bool.xor false (decide
            (([Ev.keyUp Key.f, Ev.keyUp Key.f, Ev.keyUp Key.f] : List Ev).length % 2 = 1))
    ∧ (Run ⟨true, true, 1, 0, [⟨[Ev.keyUp Key.f], 5⟩]⟩).1 = none :=
  ⟨claim_C6.2.1 true false [Ev.keyUp Key.f] (by decide),
   (claim_C6.2.2.1 true false [Ev.keyUp Key.f, Ev.keyUp Key.f, Ev.keyUp Key.f]
     (by decide)).1,
   claim_C6.2.2.2 ⟨true, true, 1, 0, [⟨[Ev.keyUp Key.f], 5⟩]⟩ rfl rfl (by decide)⟩

end Eff
